import Mathlib

/-!
Verification development for the pressure-vessel cost-estimation tool.

The TypeScript source is shallowly embedded here:
* JS numbers are modelled as exact rationals (`ℚ`);
* optional / possibly-`undefined` JSON fields coming back from the AI
  service are modelled as `Option`;
* JS falsiness (`undefined`, `""`, `0`) is modelled explicitly: string
  fields stored on records collapse `undefined` to `""` (the two are
  indistinguishable through the record's uses: truthiness tests and
  display), and the optional numeric field `designWeight` collapses
  `undefined` to `0` (the code itself does so via `eq.designWeight || 0`);
* identifiers generated by the code via `Date.now()` render the clock
  as `0`.
-/

namespace PVEstimator

/-- JS truthiness of a possibly-missing string (`undefined` and `""` are falsy). -/
def strTruthy : Option String → Bool
  | none => false
  | some s => s ≠ ""

/-- JS truthiness of a possibly-missing number (`undefined` and `0` are falsy;
`NaN` is not modelled). -/
def numTruthy : Option ℚ → Bool
  | none => false
  | some q => q ≠ 0

/-- Embedding of the JS idiom `v || d` for string fields. -/
def jsOrStr (v : Option String) (d : String) : String :=
  match v with
  | none => d
  | some s => if s = "" then d else s

/-- Embedding of the JS idiom `v || d` for numeric fields. -/
def jsOrNum (v : Option ℚ) (d : ℚ) : ℚ :=
  match v with
  | none => d
  | some q => if q = 0 then d else q

/-- Decimal digit character, `digitChar d = Char.ofNat (48 + d)` for `d < 10`. -/
def digitChar (d : ℕ) : Char := Char.ofNat (48 + d % 10)

/-- Decimal digit string of a natural number (most significant digit first),
with explicit fuel to keep the recursion structural.  Embeds the JS template
interpolation of a non-negative integer (`\x24{eqIdx}` and friends). -/
def decDigitsAux : ℕ → ℕ → List Char
  | 0, _ => []
  | fuel + 1, n => if n < 10 then [digitChar n] else decDigitsAux fuel (n / 10) ++ [digitChar (n % 10)]

/-- Decimal rendering of a natural number as a string (`n + 1` fuel always suffices). -/
def natStr (n : ℕ) : String := String.mk (decDigitsAux (n + 1) n)

/-- Embedding of JS `String.prototype.startsWith`. -/
def strStartsWith (s p : String) : Bool := p.data.isPrefixOf s.data

/-- Material categories (`types.ts`); raw AI output may carry any string, so
records store the category as a raw string (see `mkMaterialItem`). -/
def categoryLabels : List String := ["plate", "forging", "pipe", "consumable", "other"]

/-- `MaterialItem` from `types.ts`: one BOM row. -/
structure MaterialItem where
  id : String
  name : String
  material : String
  specification : String
  weight : ℚ
  quantity : ℚ
  unitPrice : ℚ
  totalPrice : ℚ
  category : String
deriving DecidableEq, Repr

/-- Extraction progress of an equipment record (`types.ts`). -/
inductive EqStatus where
  | identified
  | extracting
  | complete
  | error
deriving DecidableEq, Repr

/-- `Equipment` from `types.ts`.  Optional string fields collapse `undefined`
to `""`, the optional `designWeight` collapses `undefined` to `0` (the code
reads it as `eq.designWeight || 0`), and `lastModified` renders `Date.now()`
as a plain `ℕ` (always `0` in this embedding). -/
structure Equipment where
  id : String
  tag : String
  name : String
  specification : String
  mainMaterial : String
  designWeight : ℚ
  pageRange : String
  sourceFileId : String
  materials : List MaterialItem
  drawings : List String
  lastModified : ℕ
  status : EqStatus
deriving DecidableEq, Repr

/-! ## Cost rollup (`BudgetView`, `EquipmentDirectory.calculateCost`) -/

/-- The cost breakdown computed by `BudgetView` (gemini.ts bundle, lines 278-282). -/
structure CostRollup where
  totalWeight : ℚ
  materialCost : ℚ
  laborCost : ℚ
  overheadCost : ℚ
  grandTotal : ℚ
deriving DecidableEq, Repr

/-- Embedding of the `BudgetView` totals:
`totalBOMWeight`, `totalMaterialCost`, `laborCost`, `overheadCost`,
`grandTotal` (each a `.reduce` with initial accumulator `0`). -/
def rollup (e : Equipment) (laborCostPerKg overheadPercent : ℚ) : CostRollup :=
  let totalWeight := e.materials.foldl (fun sum item => sum + item.weight * item.quantity) 0
  let materialCost := e.materials.foldl (fun sum item => sum + item.weight * item.quantity * item.unitPrice) 0
  let labor := totalWeight * laborCostPerKg
  let overhead := (materialCost + labor) * (overheadPercent / 100)
  { totalWeight := totalWeight
    materialCost := materialCost
    laborCost := labor
    overheadCost := overhead
    grandTotal := materialCost + labor + overhead }

/-- Embedding of `EquipmentDirectory.calculateCost` (lines 22-28): the same
arithmetic as `rollup`, returning only the grand total. -/
def calculateCost (laborCostPerKg overheadPercent : ℚ) (e : Equipment) : ℚ :=
  let totalWeight := e.materials.foldl (fun sum item => sum + item.weight * item.quantity) 0
  let materialCost := e.materials.foldl (fun sum item => sum + item.weight * item.quantity * item.unitPrice) 0
  let labor := totalWeight * laborCostPerKg
  let overhead := (materialCost + labor) * (overheadPercent / 100)
  materialCost + labor + overhead

/-- Embedding of `EquipmentDirectory` line 30: the project-level grand total,
a `.reduce` of `calculateCost` over the equipment list. -/
def projectGrandTotal (equipments : List Equipment) (laborCostPerKg overheadPercent : ℚ) : ℚ :=
  equipments.foldl (fun sum eq => sum + calculateCost laborCostPerKg overheadPercent eq) 0

/-- Embedding of the BOM weight computed in `EquipmentDirectory` (line 116)
and `BudgetView` (`totalBOMWeight`). -/
def bomWeight (e : Equipment) : ℚ :=
  e.materials.foldl (fun sum item => sum + item.weight * item.quantity) 0

/-- Embedding of `EquipmentDirectory` lines 118-119: the weight-discrepancy
flag (`weightWarning`), with `designW = eq.designWeight || 0` and the literal
`0.1` rendered as the exact rational `1/10`. -/
def weightWarning (e : Equipment) : Bool :=
  let designW := e.designWeight
  let bomW := bomWeight e
  decide (designW > 0) && decide (bomW > 0) && decide (|designW - bomW| / designW > 1 / 10)

/-! ### Helper lemmas about additive folds -/

theorem foldl_add_eq_sum {α : Type} (f : α → ℚ) (l : List α) :
    ∀ a : ℚ, l.foldl (fun sum x => sum + f x) a = a + (l.map f).sum := by
  induction l with
  | nil => intro a; simp
  | cons x xs ih =>
    intro a
    simp only [List.foldl_cons, List.map_cons, List.sum_cons, ih (a + f x)]
    ring

/-- C1: for every equipment record and every `laborCostPerKg` and
`overheadPercent`, the cost rollup computes exactly
`totalWeight = Σ weight·quantity`, `materialCost = Σ weight·quantity·unitPrice`,
`laborCost = totalWeight·l`, `overheadCost = (materialCost+laborCost)·(o/100)`
and `grandTotal = materialCost + laborCost + overheadCost`. -/
theorem rollup_exact (e : Equipment) (l o : ℚ) :
    (rollup e l o).totalWeight = (e.materials.map (fun item => item.weight * item.quantity)).sum ∧
    (rollup e l o).materialCost =
      (e.materials.map (fun item => item.weight * item.quantity * item.unitPrice)).sum ∧
    (rollup e l o).laborCost = (rollup e l o).totalWeight * l ∧
    (rollup e l o).overheadCost = ((rollup e l o).materialCost + (rollup e l o).laborCost) * (o / 100) ∧
    (rollup e l o).grandTotal =
      (rollup e l o).materialCost + (rollup e l o).laborCost + (rollup e l o).overheadCost := by
  refine ⟨?_, ?_, rfl, rfl, rfl⟩
  · show e.materials.foldl (fun sum item => sum + item.weight * item.quantity) 0 = _
    rw [foldl_add_eq_sum (fun item => item.weight * item.quantity) e.materials 0, zero_add]
  · show e.materials.foldl (fun sum item => sum + item.weight * item.quantity * item.unitPrice) 0 = _
    rw [foldl_add_eq_sum (fun item => item.weight * item.quantity * item.unitPrice) e.materials 0,
      zero_add]

theorem calculateCost_eq_rollup (e : Equipment) (l o : ℚ) :
    calculateCost l o e = (rollup e l o).grandTotal := rfl

/-- C2: the project-level grand total is the sum over equipment of that
equipment's individual rollup `grandTotal` (each rollup computed
independently, the results added). -/
theorem projectGrandTotal_eq_sum_rollup (es : List Equipment) (l o : ℚ) :
    projectGrandTotal es l o = (es.map (fun e => (rollup e l o).grandTotal)).sum := by
  unfold projectGrandTotal
  rw [foldl_add_eq_sum (fun e => calculateCost l o e) es 0, zero_add]
  simp only [calculateCost_eq_rollup]

/-- C3: the weight-discrepancy flag is set iff `designWeight > 0`,
`bomWeight > 0` and `|designWeight − bomWeight| / designWeight > 1/10`;
in particular it is never set when either weight is zero. -/
theorem weightWarning_iff (e : Equipment) :
    (weightWarning e = true ↔
      0 < e.designWeight ∧ 0 < bomWeight e ∧
        |e.designWeight - bomWeight e| / e.designWeight > 1 / 10) ∧
    (e.designWeight = 0 → weightWarning e = false) ∧
    (bomWeight e = 0 → weightWarning e = false) := by
  refine ⟨?_, ?_, ?_⟩
  · simp [weightWarning, gt_iff_lt, and_assoc]
  · intro h; simp [weightWarning, h]
  · intro h; simp [weightWarning, h]

/-- Witness for C3 at a concrete record: design weight 100, a single material
line of weight 56 and quantity 2 (BOM weight 112, 12% deviation), flagged. -/
theorem weightWarning_iff_witness :
    weightWarning
      { id := "e", tag := "V-1", name := "n", specification := "", mainMaterial := "",
        designWeight := 100, pageRange := "", sourceFileId := "",
        materials := [{ id := "m", name := "shell", material := "Q345R", specification := "",
                        weight := 56, quantity := 2, unitPrice := 0, totalPrice := 0,
                        category := "plate" }],
        drawings := [], lastModified := 0, status := EqStatus.complete } = true := by
  have h := (weightWarning_iff
    { id := "e", tag := "V-1", name := "n", specification := "", mainMaterial := "",
      designWeight := 100, pageRange := "", sourceFileId := "",
      materials := [{ id := "m", name := "shell", material := "Q345R", specification := "",
                      weight := 56, quantity := 2, unitPrice := 0, totalPrice := 0,
                      category := "plate" }],
      drawings := [], lastModified := 0, status := EqStatus.complete }).1
  exact h.mpr (by norm_num [bomWeight])

/-! ## Raw extraction output and consolidation (`ExtractionView.processQueue`) -/

/-- One raw BOM row as returned by the AI detail extraction; every field may
be missing despite the requested response schema. -/
structure RawMaterial where
  name : Option String
  material : Option String
  specification : Option String
  weight : Option ℚ
  quantity : Option ℚ
  category : Option String
deriving DecidableEq, Repr

/-- One raw equipment result consumed by `processQueue`
(`analyzeDrawingForMaterials` output); `eqData.materials || []` collapses a
missing materials array to `[]`. -/
structure RawEquip where
  tag : Option String
  name : Option String
  specification : Option String
  mainMaterial : Option String
  designWeight : Option ℚ
  materials : List RawMaterial
deriving DecidableEq, Repr

/-- One uploaded file entry of the `ExtractionView` queue together with its
extraction results: the file's name, the data-URL string stored into
`drawings`, and the raw equipment list returned by the service. -/
structure FileEntry where
  name : String
  base64 : String
  equipments : List RawEquip
deriving DecidableEq, Repr

/-- Material-item id `mat-T-i-eqIdx-itemIdx` (ExtractionView line 89),
with `Date.now()` rendered as `0`. -/
def matId (fileIdx eqIdx itemIdx : ℕ) : String :=
  "mat-0-" ++ natStr fileIdx ++ "-" ++ natStr eqIdx ++ "-" ++ natStr itemIdx

/-- Embedding of the raw-item mapping of `processQueue` (lines 88-98):
best-effort defaulting of a raw BOM row into a `MaterialItem`. -/
def mkMaterialItem (idStr : String) (item : RawMaterial) : MaterialItem :=
  { id := idStr
    name := jsOrStr item.name "未知组件"
    material := jsOrStr item.material "N/A"
    specification := jsOrStr item.specification "-"
    weight := jsOrNum item.weight 0
    quantity := jsOrNum item.quantity 1
    unitPrice := 0
    totalPrice := 0
    category := jsOrStr item.category "other" }

/-- The material items built for one raw equipment result (lines 88-98). -/
def rawItemsOf (fileIdx eqIdx : ℕ) (eqData : RawEquip) : List MaterialItem :=
  eqData.materials.enum.map (fun p => mkMaterialItem (matId fileIdx eqIdx p.1) p.2)

/-- Whether a raw tag is unresolved: the JS test
`eqData.tag === 'Unknown' || !eqData.tag` (line 101). -/
def isUnresolvedTag : Option String → Bool
  | none => true
  | some t => t = "Unknown" || t = ""

/-- The merge key of `processQueue` (lines 101-103): the tag verbatim when
resolved, otherwise `Unknown-` ++ file name ++ `-` ++ occurrence index. -/
def tagKey (fileName : String) (eqIdx : ℕ) (tag : Option String) : String :=
  if isUnresolvedTag tag then "Unknown-" ++ fileName ++ "-" ++ natStr eqIdx
  else (tag.getD "")

/-- Fill-if-empty for the optional string metadata (lines 113-114):
`if (!existing.field && incoming.field) existing.field = incoming.field`. -/
def fillStr (old : String) (incoming : Option String) : String :=
  if old = "" ∧ strTruthy incoming then incoming.getD "" else old

/-- Fill-if-empty for `designWeight` (line 115). -/
def fillNum (old : ℚ) (incoming : Option ℚ) : ℚ :=
  if old = 0 ∧ numTruthy incoming then incoming.getD 0 else old

/-- Embedding of the merge branch of `processQueue` (lines 106-115): append
materials, add the drawing reference unless already present, and fill the
metadata fields only when empty. -/
def mergeEquip (existing : Equipment) (base64 : String) (eqData : RawEquip)
    (newItems : List MaterialItem) : Equipment :=
  { existing with
    materials := existing.materials ++ newItems
    drawings := if base64 ∈ existing.drawings then existing.drawings
                else existing.drawings ++ [base64]
    specification := fillStr existing.specification eqData.specification
    mainMaterial := fillStr existing.mainMaterial eqData.mainMaterial
    designWeight := fillNum existing.designWeight eqData.designWeight }

/-- Embedding of the creation branch of `processQueue` (lines 117-130). -/
def newEquip (fileIdx eqIdx : ℕ) (key : String) (base64 : String) (eqData : RawEquip)
    (items : List MaterialItem) : Equipment :=
  { id := "eq-0-" ++ natStr fileIdx ++ "-" ++ natStr eqIdx
    tag := if strStartsWith key "Unknown-" then "未命名设备" else key
    name := eqData.name.getD ""
    specification := eqData.specification.getD ""
    mainMaterial := eqData.mainMaterial.getD ""
    designWeight := eqData.designWeight.getD 0
    pageRange := ""
    sourceFileId := ""
    materials := items
    drawings := [base64]
    lastModified := 0
    status := EqStatus.complete }

/-- One raw equipment occurrence flattened out of the file queue. -/
structure Entry where
  fileIdx : ℕ
  fileName : String
  base64 : String
  eqIdx : ℕ
  raw : RawEquip
deriving DecidableEq, Repr

/-- The merge key assigned to an entry. -/
def Entry.key (x : Entry) : String := tagKey x.fileName x.eqIdx x.raw.tag

/-- Replace the value stored at a key of an association list (in place,
preserving iteration order), as JS `Map.set` on an existing key. -/
def updateAssoc (k : String) (f : Equipment → Equipment) :
    List (String × Equipment) → List (String × Equipment)
  | [] => []
  | (k', v) :: rest =>
      if k' = k then (k', f v) :: rest else (k', v) :: updateAssoc k f rest

/-- Whether the map already holds a key (JS `Map.has`). -/
def hasKey (k : String) (m : List (String × Equipment)) : Bool :=
  m.any (fun p => p.1 == k)

/-- Processing of one raw equipment occurrence (the body of the
`data.equipments.forEach` of `processQueue`, lines 87-132). -/
def stepEntry (m : List (String × Equipment)) (x : Entry) : List (String × Equipment) :=
  let items := rawItemsOf x.fileIdx x.eqIdx x.raw
  let key := Entry.key x
  if hasKey key m then
    updateAssoc key (fun existing => mergeEquip existing x.base64 x.raw items) m
  else
    m ++ [(key, newEquip x.fileIdx x.eqIdx key x.base64 x.raw items)]

/-- The entries contributed by one file of the queue. -/
def entriesOf (fileIdx : ℕ) (f : FileEntry) : List Entry :=
  f.equipments.enum.map (fun p =>
    { fileIdx := fileIdx, fileName := f.name, base64 := f.base64, eqIdx := p.1, raw := p.2 })

/-- Processing of one file of the queue into the accumulated equipment map. -/
def consolidateFile (fileIdx : ℕ) (f : FileEntry) (m : List (String × Equipment)) :
    List (String × Equipment) :=
  (entriesOf fileIdx f).foldl stepEntry m

/-- Embedding of the consolidation loop of `processQueue`: every file of the
queue is processed in order into the `equipmentMap`, an insertion-ordered map
from merge key to equipment record. -/
def processQueue (files : List FileEntry) : List (String × Equipment) :=
  files.enum.foldl (fun m p => consolidateFile p.1 p.2 m) []

/-- Lookup in the equipment map (JS `Map.get`). -/
def lookupA (k : String) (m : List (String × Equipment)) : Option Equipment :=
  (m.find? (fun p => p.1 == k)).map Prod.snd

/-! ## C4: fill-if-empty merge semantics -/

/-- C4: merging a raw result into an existing record overwrites
`specification`, `mainMaterial` and `designWeight` only when the existing
field is empty/zero and the incoming value is non-empty/non-zero; a populated
field is never overwritten. -/
theorem mergeEquip_fill_if_empty (existing : Equipment) (b : String) (d : RawEquip)
    (items : List MaterialItem) :
    ((mergeEquip existing b d items).specification =
      if existing.specification = "" ∧ strTruthy d.specification = true
      then d.specification.getD "" else existing.specification) ∧
    ((mergeEquip existing b d items).mainMaterial =
      if existing.mainMaterial = "" ∧ strTruthy d.mainMaterial = true
      then d.mainMaterial.getD "" else existing.mainMaterial) ∧
    ((mergeEquip existing b d items).designWeight =
      if existing.designWeight = 0 ∧ numTruthy d.designWeight = true
      then d.designWeight.getD 0 else existing.designWeight) ∧
    (existing.specification ≠ "" →
      (mergeEquip existing b d items).specification = existing.specification) ∧
    (existing.mainMaterial ≠ "" →
      (mergeEquip existing b d items).mainMaterial = existing.mainMaterial) ∧
    (existing.designWeight ≠ 0 →
      (mergeEquip existing b d items).designWeight = existing.designWeight) := by
  refine ⟨rfl, rfl, rfl, ?_, ?_, ?_⟩
  · intro h
    show fillStr existing.specification d.specification = existing.specification
    unfold fillStr
    rw [if_neg]
    rintro ⟨h1, -⟩
    exact h h1
  · intro h
    show fillStr existing.mainMaterial d.mainMaterial = existing.mainMaterial
    unfold fillStr
    rw [if_neg]
    rintro ⟨h1, -⟩
    exact h h1
  · intro h
    show fillNum existing.designWeight d.designWeight = existing.designWeight
    unfold fillNum
    rw [if_neg]
    rintro ⟨h1, -⟩
    exact h h1

/-- Witness for C4 at a concrete merge: an existing record with populated
specification `DN1000` and design weight `5` keeps both against an incoming
result carrying `DN2000` and `7`, while its empty `mainMaterial` is filled. -/
theorem mergeEquip_fill_if_empty_witness :
    (mergeEquip
        { id := "e", tag := "V-1", name := "n", specification := "DN1000",
          mainMaterial := "", designWeight := 5, pageRange := "", sourceFileId := "",
          materials := [], drawings := [], lastModified := 0, status := EqStatus.complete }
        "d2"
        { tag := some "V-1", name := some "n", specification := some "DN2000",
          mainMaterial := some "Q345R", designWeight := some 7, materials := [] }
        []).specification = "DN1000" ∧
    (mergeEquip
        { id := "e", tag := "V-1", name := "n", specification := "DN1000",
          mainMaterial := "", designWeight := 5, pageRange := "", sourceFileId := "",
          materials := [], drawings := [], lastModified := 0, status := EqStatus.complete }
        "d2"
        { tag := some "V-1", name := some "n", specification := some "DN2000",
          mainMaterial := some "Q345R", designWeight := some 7, materials := [] }
        []).designWeight = 5 ∧
    (mergeEquip
        { id := "e", tag := "V-1", name := "n", specification := "DN1000",
          mainMaterial := "", designWeight := 5, pageRange := "", sourceFileId := "",
          materials := [], drawings := [], lastModified := 0, status := EqStatus.complete }
        "d2"
        { tag := some "V-1", name := some "n", specification := some "DN2000",
          mainMaterial := some "Q345R", designWeight := some 7, materials := [] }
        []).mainMaterial = "Q345R" := by
  have h := mergeEquip_fill_if_empty
    { id := "e", tag := "V-1", name := "n", specification := "DN1000",
      mainMaterial := "", designWeight := 5, pageRange := "", sourceFileId := "",
      materials := [], drawings := [], lastModified := 0, status := EqStatus.complete }
    "d2"
    { tag := some "V-1", name := some "n", specification := some "DN2000",
      mainMaterial := some "Q345R", designWeight := some 7, materials := [] }
    []
  refine ⟨h.2.2.2.1 (by decide), h.2.2.2.2.2 (by norm_num), ?_⟩
  rw [h.2.1]
  decide

/-! ## C8: best-effort defaulting of raw extraction output -/

/-- The raw BOM row refuting C8 as stated: all fields missing except an
unrecognized category string. -/
def c8raw : RawMaterial :=
  { name := none, material := none, specification := none, weight := none,
    quantity := none, category := some "stainless" }

/-- Counterexample to C8 as stated: a raw row with a missing quantity is
defaulted to quantity `1`, not `0`, and an unrecognized non-empty category
string is kept verbatim instead of being defaulted to `other`. -/
theorem mkMaterialItem_defaults_counterexample :
    (mkMaterialItem "m" c8raw).quantity = 1 ∧
    ¬ (mkMaterialItem "m" c8raw).quantity = 0 ∧
    (mkMaterialItem "m" c8raw).category = "stainless" ∧
    "stainless" ∉ categoryLabels := by
  refine ⟨rfl, by norm_num [mkMaterialItem, c8raw, jsOrNum], rfl, by decide⟩

/-- C8 as amended: construction of material lines and equipment records is
best-effort — missing `name`/`material`/`specification` get placeholder
texts, a missing `weight` defaults to `0` but a missing `quantity` defaults
to `1`, `unitPrice`/`totalPrice` start at `0`, a missing (falsy) `category`
defaults to `other` while an unrecognized non-empty category string is kept
verbatim, and an absent or placeholder tag yields a synthesized `Unknown-`
key whose record carries the unresolved-tag placeholder text. -/
theorem bestEffort_defaults :
    (∀ (idStr : String) (raw : RawMaterial),
      (strTruthy raw.name = false → (mkMaterialItem idStr raw).name = "未知组件") ∧
      (strTruthy raw.material = false → (mkMaterialItem idStr raw).material = "N/A") ∧
      (strTruthy raw.specification = false → (mkMaterialItem idStr raw).specification = "-") ∧
      (numTruthy raw.weight = false → (mkMaterialItem idStr raw).weight = 0) ∧
      (numTruthy raw.quantity = false → (mkMaterialItem idStr raw).quantity = 1) ∧
      (mkMaterialItem idStr raw).unitPrice = 0 ∧
      (mkMaterialItem idStr raw).totalPrice = 0 ∧
      (strTruthy raw.category = false → (mkMaterialItem idStr raw).category = "other") ∧
      (∀ c : String, raw.category = some c → c ≠ "" → (mkMaterialItem idStr raw).category = c)) ∧
    (∀ (fileName : String) (eqIdx : ℕ) (t : Option String),
      isUnresolvedTag t = true → strStartsWith (tagKey fileName eqIdx t) "Unknown-" = true) ∧
    (∀ (fileIdx eqIdx : ℕ) (key base64 : String) (eqData : RawEquip)
        (items : List MaterialItem),
      strStartsWith key "Unknown-" = true →
      (newEquip fileIdx eqIdx key base64 eqData items).tag = "未命名设备") := by
  refine ⟨?_, ?_, ?_⟩
  · intro idStr raw
    refine ⟨?_, ?_, ?_, ?_, ?_, rfl, rfl, ?_, ?_⟩
    · intro h
      show jsOrStr raw.name "未知组件" = "未知组件"
      cases hn : raw.name with
      | none => simp [jsOrStr]
      | some s =>
        rw [hn] at h
        simp only [strTruthy, ne_eq, decide_not] at h
        simp only [jsOrStr, if_pos (by simpa using h)]
    · intro h
      show jsOrStr raw.material "N/A" = "N/A"
      cases hn : raw.material with
      | none => simp [jsOrStr]
      | some s =>
        rw [hn] at h
        simp only [strTruthy, ne_eq, decide_not] at h
        simp only [jsOrStr, if_pos (by simpa using h)]
    · intro h
      show jsOrStr raw.specification "-" = "-"
      cases hn : raw.specification with
      | none => simp [jsOrStr]
      | some s =>
        rw [hn] at h
        simp only [strTruthy, ne_eq, decide_not] at h
        simp only [jsOrStr, if_pos (by simpa using h)]
    · intro h
      show jsOrNum raw.weight 0 = 0
      cases hn : raw.weight with
      | none => simp [jsOrNum]
      | some q =>
        rw [hn] at h
        simp only [numTruthy, ne_eq, decide_not] at h
        simp only [jsOrNum, if_pos (by simpa using h)]
    · intro h
      show jsOrNum raw.quantity 1 = 1
      cases hn : raw.quantity with
      | none => simp [jsOrNum]
      | some q =>
        rw [hn] at h
        simp only [numTruthy, ne_eq, decide_not] at h
        simp only [jsOrNum, if_pos (by simpa using h)]
    · intro h
      show jsOrStr raw.category "other" = "other"
      cases hn : raw.category with
      | none => simp [jsOrStr]
      | some s =>
        rw [hn] at h
        simp only [strTruthy, ne_eq, decide_not] at h
        simp only [jsOrStr, if_pos (by simpa using h)]
    · intro c hc hne
      show jsOrStr raw.category "other" = c
      rw [hc]
      simp [jsOrStr, hne]
  · intro fileName eqIdx t ht
    rw [tagKey, if_pos (by simpa using ht)]
    show ("Unknown-".data).isPrefixOf
      ("Unknown-" ++ fileName ++ "-" ++ natStr eqIdx).data = true
    have hdata : ("Unknown-" ++ fileName ++ "-" ++ natStr eqIdx).data =
        "Unknown-".data ++ (fileName.data ++ "-".data ++ (natStr eqIdx).data) := by
      simp [String.data_append, List.append_assoc]
    rw [hdata, List.isPrefixOf_iff_prefix]
    exact List.prefix_append _ _
  · intro fileIdx eqIdx key base64 eqData items h
    simp [newEquip, h]

/-- Witness for C8 as amended at a fully missing raw row and an absent tag. -/
theorem bestEffort_defaults_witness :
    (mkMaterialItem "m0"
        { name := none, material := none, specification := none, weight := none,
          quantity := none, category := none }).name = "未知组件" ∧
    (mkMaterialItem "m0"
        { name := none, material := none, specification := none, weight := none,
          quantity := none, category := none }).weight = 0 ∧
    (mkMaterialItem "m0"
        { name := none, material := none, specification := none, weight := none,
          quantity := none, category := none }).quantity = 1 ∧
    (mkMaterialItem "m0"
        { name := none, material := none, specification := none, weight := none,
          quantity := none, category := none }).category = "other" ∧
    strStartsWith (tagKey "a.pdf" 0 none) "Unknown-" = true := by
  have h := bestEffort_defaults
  have h1 := h.1 "m0"
    { name := none, material := none, specification := none, weight := none,
      quantity := none, category := none }
  exact ⟨h1.1 (by decide), h1.2.2.2.1 (by decide), h1.2.2.2.2.1 (by decide),
    h1.2.2.2.2.2.2.2.1 (by decide), h.2.1 "a.pdf" 0 none (by decide)⟩

/-! ## C5: unresolved-tag merge keys -/

/-- First file of the C5 counterexample: named `a.pdf`, one equipment with an
absent tag. -/
def c5fileA : FileEntry :=
  { name := "a.pdf", base64 := "d1",
    equipments := [{ tag := none, name := some "罐A", specification := none,
                     mainMaterial := none, designWeight := none, materials := [] }] }

/-- Second file of the C5 counterexample: a different source file that
happens to carry the same name `a.pdf`, one equipment with the placeholder
tag `Unknown`. -/
def c5fileB : FileEntry :=
  { name := "a.pdf", base64 := "d2",
    equipments := [{ tag := some "Unknown", name := some "罐B", specification := none,
                     mainMaterial := none, designWeight := none, materials := [] }] }

/-- Counterexample to C5 as stated: two unresolved-tag extractions from two
different source files (different queue entries, different contents) are
merged into a single equipment record, because the synthesized key uses the
file *name* and both files are named `a.pdf`. -/
theorem unresolvedTag_same_name_merges :
    (processQueue [c5fileA, c5fileB]).length = 1 := by decide

theorem digitChar_ne_dash (d : ℕ) : digitChar d ≠ '-' := by
  unfold digitChar
  have h : d % 10 < 10 := Nat.mod_lt _ (by norm_num)
  set k := d % 10 with hk
  interval_cases k <;> decide

theorem decDigitsAux_ne_dash : ∀ (fuel n : ℕ) (c : Char), c ∈ decDigitsAux fuel n → c ≠ '-' := by
  intro fuel
  induction fuel with
  | zero => intro n c hc; simp [decDigitsAux] at hc
  | succ f ih =>
    intro n c hc
    rw [decDigitsAux] at hc
    by_cases h : n < 10
    · rw [if_pos h] at hc
      simp only [List.mem_singleton] at hc
      subst hc
      exact digitChar_ne_dash n
    · rw [if_neg h] at hc
      rcases List.mem_append.mp hc with h1 | h1
      · exact ih (n / 10) c h1
      · simp only [List.mem_singleton] at h1
        subst h1
        exact digitChar_ne_dash (n % 10)

/-- Splitting a list at a separator absent from the prefix parts is unique. -/
theorem sep_cons_inj : ∀ (u v : List Char) {p q : List Char} {c : Char},
    c ∉ u → c ∉ v → u ++ c :: p = v ++ c :: q → u = v ∧ p = q := by
  intro u
  induction u with
  | nil =>
    intro v p q c _ hv h
    cases v with
    | nil => simpa using h
    | cons d v' =>
      exfalso
      simp only [List.nil_append, List.cons_append, List.cons.injEq] at h
      exact hv (h.1 ▸ List.mem_cons_self d v')
  | cons e u' ih =>
    intro v p q c hu hv h
    cases v with
    | nil =>
      exfalso
      simp only [List.cons_append, List.nil_append, List.cons.injEq] at h
      exact hu (h.1 ▸ List.mem_cons_self e u')
    | cons d v' =>
      simp only [List.cons_append, List.cons.injEq] at h
      obtain ⟨rfl, h2⟩ := h
      have hu' : c ∉ u' := fun hm => hu (List.mem_cons_of_mem _ hm)
      have hv' : c ∉ v' := fun hm => hv (List.mem_cons_of_mem _ hm)
      obtain ⟨rfl, rfl⟩ := ih v' hu' hv' h2
      exact ⟨rfl, rfl⟩

/-- C5 as amended: the merge key for an unresolved tag is synthesized from
the originating source file's *name* and the occurrence index within that
file, so unresolved-tag equipment from files with distinct names never
collide (equipment from two same-named files can still merge, see the
counterexample); for two single-equipment files with unresolved tags and
distinct names, consolidation keeps two separate records. -/
theorem unresolvedTag_distinct_names_no_collision :
    (∀ (n1 n2 : String) (i1 i2 : ℕ) (t1 t2 : Option String),
      isUnresolvedTag t1 = true → isUnresolvedTag t2 = true → n1 ≠ n2 →
      tagKey n1 i1 t1 ≠ tagKey n2 i2 t2) ∧
    (∀ (f1 f2 : FileEntry) (e1 e2 : RawEquip),
      f1.equipments = [e1] → f2.equipments = [e2] →
      isUnresolvedTag e1.tag = true → isUnresolvedTag e2.tag = true →
      f1.name ≠ f2.name →
      (processQueue [f1, f2]).length = 2) := by
  have hkey : ∀ (n1 n2 : String) (i1 i2 : ℕ) (t1 t2 : Option String),
      isUnresolvedTag t1 = true → isUnresolvedTag t2 = true → n1 ≠ n2 →
      tagKey n1 i1 t1 ≠ tagKey n2 i2 t2 := by
    intro n1 n2 i1 i2 t1 t2 h1 h2 hn heq
    rw [tagKey, if_pos (by simpa using h1), tagKey, if_pos (by simpa using h2)] at heq
    have hdata : ∀ (n : String) (i : ℕ),
        ("Unknown-" ++ n ++ "-" ++ natStr i).data =
          "Unknown-".data ++ (n.data ++ '-' :: (natStr i).data) := by
      intro n i
      simp [String.data_append, List.append_assoc]
    have h3 : "Unknown-".data ++ (n1.data ++ '-' :: (natStr i1).data) =
        "Unknown-".data ++ (n2.data ++ '-' :: (natStr i2).data) := by
      rw [← hdata, ← hdata, heq]
    have h4 := List.append_cancel_left h3
    have h5 : (natStr i1).data.reverse ++ '-' :: n1.data.reverse =
        (natStr i2).data.reverse ++ '-' :: n2.data.reverse := by
      have := congrArg List.reverse h4
      simpa [List.reverse_append] using this
    have hd1 : '-' ∉ (natStr i1).data.reverse := by
      intro hm
      exact decDigitsAux_ne_dash _ _ _ (List.mem_reverse.mp hm) rfl
    have hd2 : '-' ∉ (natStr i2).data.reverse := by
      intro hm
      exact decDigitsAux_ne_dash _ _ _ (List.mem_reverse.mp hm) rfl
    obtain ⟨-, h7⟩ := sep_cons_inj _ _ hd1 hd2 h5
    apply hn
    have hdd : n1.data = n2.data := by
      have h8 := congrArg List.reverse h7
      simpa using h8
    calc n1 = String.mk n1.data := rfl
      _ = String.mk n2.data := by rw [hdd]
      _ = n2 := rfl
  refine ⟨hkey, ?_⟩
  intro f1 f2 e1 e2 he1 he2 ht1 ht2 hn
  have hne := hkey f1.name f2.name 0 0 e1.tag e2.tag ht1 ht2 hn
  have hPQ : processQueue [f1, f2] =
      stepEntry (stepEntry [] ⟨0, f1.name, f1.base64, 0, e1⟩)
        ⟨1, f2.name, f2.base64, 0, e2⟩ := by
    simp [processQueue, consolidateFile, entriesOf, he1, he2, List.enum, List.enumFrom]
  have hstep1 : stepEntry [] ⟨0, f1.name, f1.base64, 0, e1⟩ =
      [(Entry.key ⟨0, f1.name, f1.base64, 0, e1⟩,
        newEquip 0 0 (Entry.key ⟨0, f1.name, f1.base64, 0, e1⟩) f1.base64 e1
          (rawItemsOf 0 0 e1))] := by
    simp [stepEntry, hasKey]
  have hkeyne : (Entry.key ⟨0, f1.name, f1.base64, 0, e1⟩ ==
      Entry.key ⟨1, f2.name, f2.base64, 0, e2⟩) = false :=
    beq_eq_false_iff_ne.mpr hne
  rw [hPQ, hstep1, stepEntry]
  simp only [hasKey, List.any_cons, List.any_nil, Bool.or_false, hkeyne,
    if_neg Bool.false_ne_true]
  rfl

/-- Witness for C5 as amended: two single-equipment files named `a.pdf` and
`b.pdf`, both with unresolved tags, stay two separate records, and their
synthesized keys differ. -/
theorem unresolvedTag_distinct_names_no_collision_witness :
    tagKey "a.pdf" 0 none ≠ tagKey "b.pdf" 0 (some "Unknown") ∧
    (processQueue
      [{ name := "a.pdf", base64 := "d1",
         equipments := [{ tag := none, name := some "罐A", specification := none,
                          mainMaterial := none, designWeight := none, materials := [] }] },
       { name := "b.pdf", base64 := "d2",
         equipments := [{ tag := some "Unknown", name := some "罐B", specification := none,
                          mainMaterial := none, designWeight := none, materials := [] }] }]).length
      = 2 := by
  constructor
  · exact unresolvedTag_distinct_names_no_collision.1 "a.pdf" "b.pdf" 0 0 none
      (some "Unknown") (by decide) (by decide) (by decide)
  · exact unresolvedTag_distinct_names_no_collision.2
      { name := "a.pdf", base64 := "d1",
        equipments := [{ tag := none, name := some "罐A", specification := none,
                         mainMaterial := none, designWeight := none, materials := [] }] }
      { name := "b.pdf", base64 := "d2",
        equipments := [{ tag := some "Unknown", name := some "罐B", specification := none,
                         mainMaterial := none, designWeight := none, materials := [] }] }
      _ _ rfl rfl (by decide) (by decide) (by decide)

/-! ## C6: failure semantics of detail extraction (`SmartImporter`, `gemini.ts`) -/

/-- One structure-scan result (`scanDocumentStructure` output row). -/
structure ScanResult where
  tag : Option String
  name : Option String
  pageRange : Option String
deriving DecidableEq, Repr

/-- Embedding of the identified-equipment creation of `startStructureScan`
(part_000 lines 81-93); the generated id (`Date.now()`/`Math.random()`) is a
parameter. -/
def mkIdentified (idStr fileId fileData : String) (res : ScanResult) : Equipment :=
  { id := idStr
    tag := jsOrStr res.tag "Unknown"
    name := jsOrStr res.name "未命名设备"
    specification := ""
    mainMaterial := ""
    designWeight := 0
    pageRange := jsOrStr res.pageRange "全文件"
    sourceFileId := fileId
    materials := []
    drawings := [fileData]
    lastModified := 0
    status := EqStatus.identified }

/-- Parsed output of one `extractEquipmentDetails` call. -/
structure DetailResult where
  specification : Option String
  mainMaterial : Option String
  designWeight : Option ℚ
  materials : Option (List RawMaterial)
deriving DecidableEq, Repr

/-- Embedding of the material mapping of `startDetailExtraction`
(part_000 lines 135-141): spread the raw row, then set the id, zero the
prices and default a falsy category; fields the spread leaves `undefined`
collapse to `""`/`0`. -/
def mkDetailMaterial (eqId : String) (idx : ℕ) (m : RawMaterial) : MaterialItem :=
  { id := eqId ++ "-mat-" ++ natStr idx
    name := m.name.getD ""
    material := m.material.getD ""
    specification := m.specification.getD ""
    weight := m.weight.getD 0
    quantity := m.quantity.getD 0
    unitPrice := 0
    totalPrice := 0
    category := jsOrStr m.category "other" }

/-- Embedding of the success branch of `startDetailExtraction`
(part_000 lines 130-143). -/
def applyDetails (eq : Equipment) (d : DetailResult) : Equipment :=
  { eq with
    specification := jsOrStr d.specification eq.specification
    mainMaterial := jsOrStr d.mainMaterial eq.mainMaterial
    designWeight := jsOrNum d.designWeight eq.designWeight
    materials := (d.materials.getD []).enum.map (fun p => mkDetailMaterial eq.id p.1 p.2)
    status := EqStatus.complete }

/-- One iteration of the `startDetailExtraction` loop (part_000 lines
114-152): skip the record when its source file is gone, otherwise apply the
detail result on success and mark the record `error` on failure. -/
def detailStep (fileIds : List String) (p : Equipment × Except Unit DetailResult) : Equipment :=
  if p.1.sourceFileId ∈ fileIds then
    match p.2 with
    | Except.ok d => applyDetails p.1 d
    | Except.error _ => { p.1 with status := EqStatus.error }
  else p.1

/-- Embedding of `startDetailExtraction`: every identified equipment is kept,
each paired with the outcome of its own detail-extraction call. -/
def startDetailExtraction (fileIds : List String)
    (xs : List (Equipment × Except Unit DetailResult)) : List Equipment :=
  xs.map (detailStep fileIds)

/-- Embedding of one element of the `detailPromises` of
`analyzeDrawingForMaterials` (gemini.ts lines 154-162): on success the
detail fields are spread over the scan row, on failure the scan row is kept
with an empty materials list. -/
def analyzeOne (eq : ScanResult) (outcome : Except Unit RawEquip) : RawEquip :=
  match outcome with
  | Except.ok d =>
      { tag := if d.tag.isSome then d.tag else eq.tag
        name := if d.name.isSome then d.name else eq.name
        specification := d.specification
        mainMaterial := d.mainMaterial
        designWeight := d.designWeight
        materials := d.materials }
  | Except.error _ =>
      { tag := eq.tag, name := eq.name, specification := none,
        mainMaterial := none, designWeight := none, materials := [] }

/-- Embedding of `analyzeDrawingForMaterials`: all identified equipment are
processed, with a per-equipment catch. -/
def analyzeDrawingForMaterials (xs : List (ScanResult × Except Unit RawEquip)) : List RawEquip :=
  xs.map (fun p => analyzeOne p.1 p.2)

/-- C6: when the detail call fails for an identified equipment (structure
scan succeeded, detail call failed), the record is retained — with
`materials = []` and `status = error` — rather than dropped, and the
remaining equipment of the batch are still processed; likewise the
`analyzeDrawingForMaterials` fallback keeps the scanned row with an empty
materials list. -/
theorem detailExtraction_failure_retained (fileIds : List String)
    (xs : List (Equipment × Except Unit DetailResult)) :
    ((startDetailExtraction fileIds xs).length = xs.length ∧
      ∀ p ∈ xs, detailStep fileIds p ∈ startDetailExtraction fileIds xs) ∧
    (∀ (idStr fileId fileData : String) (res : ScanResult),
      fileId ∈ fileIds →
      detailStep fileIds (mkIdentified idStr fileId fileData res, Except.error ()) =
        { mkIdentified idStr fileId fileData res with status := EqStatus.error } ∧
      (detailStep fileIds (mkIdentified idStr fileId fileData res, Except.error ())).materials
        = [] ∧
      (detailStep fileIds (mkIdentified idStr fileId fileData res, Except.error ())).status
        = EqStatus.error) ∧
    (∀ ys : List (ScanResult × Except Unit RawEquip),
      (analyzeDrawingForMaterials ys).length = ys.length) ∧
    (∀ s : ScanResult, (analyzeOne s (Except.error ())).materials = []) := by
  refine ⟨⟨by simp [startDetailExtraction], ?_⟩, ?_, ?_, ?_⟩
  · intro p hp
    exact List.mem_map_of_mem (detailStep fileIds) hp
  · intro idStr fileId fileData res hmem
    have hsrc : (mkIdentified idStr fileId fileData res).sourceFileId = fileId := rfl
    have hstep : detailStep fileIds (mkIdentified idStr fileId fileData res, Except.error ()) =
        { mkIdentified idStr fileId fileData res with status := EqStatus.error } := by
      unfold detailStep
      rw [if_pos (by rw [hsrc]; exact hmem)]
    refine ⟨hstep, ?_, ?_⟩
    · rw [hstep]; rfl
    · rw [hstep]
  · intro ys
    simp [analyzeDrawingForMaterials]
  · intro s
    rfl

/-- Witness for C6: a concrete scanned equipment whose detail call fails is
kept with empty materials and error status, while its batch mate is
processed. -/
theorem detailExtraction_failure_retained_witness :
    (startDetailExtraction ["file-1"]
        [(mkIdentified "eq-1" "file-1" "DATA" ⟨some "V-1", some "罐", some "第1页"⟩,
          Except.error ()),
         (mkIdentified "eq-2" "file-1" "DATA" ⟨some "V-2", some "塔", some "第2页"⟩,
          Except.ok ⟨some "DN1000", some "Q345R", some 100, some []⟩)]).length = 2 ∧
    (detailStep ["file-1"]
        (mkIdentified "eq-1" "file-1" "DATA" ⟨some "V-1", some "罐", some "第1页"⟩,
          Except.error ())).materials = [] ∧
    (detailStep ["file-1"]
        (mkIdentified "eq-1" "file-1" "DATA" ⟨some "V-1", some "罐", some "第1页"⟩,
          Except.error ())).status = EqStatus.error := by
  have h := detailExtraction_failure_retained ["file-1"]
    [(mkIdentified "eq-1" "file-1" "DATA" ⟨some "V-1", some "罐", some "第1页"⟩,
      Except.error ()),
     (mkIdentified "eq-2" "file-1" "DATA" ⟨some "V-2", some "塔", some "第2页"⟩,
      Except.ok ⟨some "DN1000", some "Q345R", some 100, some []⟩)]
  have h2 := h.2.1 "eq-1" "file-1" "DATA" ⟨some "V-1", some "罐", some "第1页"⟩
    (by decide)
  exact ⟨h.1.1, h2.2.1, h2.2.2⟩

/-! ## C7/C10: pricing lookup (`findMaterialPrices`, `handleFetchPrices`) -/

/-- Whether `needle` occurs as a contiguous substring of `hay`
(JS `String.prototype.includes`). -/
def hasSubstr (needle : List Char) : List Char → Bool
  | [] => needle.isPrefixOf []
  | c :: t => needle.isPrefixOf (c :: t) || hasSubstr needle t

/-- Embedding of `hay.toLowerCase().includes(needle.toLowerCase())`. -/
def containsCI (hay needle : String) : Bool :=
  hasSubstr (needle.data.map Char.toLower) (hay.data.map Char.toLower)

/-- The matching test of `handleFetchPrices` (BudgetView lines 313-316):
a response key matches a line's `material` field when one contains the other
case-insensitively. -/
def priceKeyMatches (materialField key : String) : Bool :=
  containsCI materialField key || containsCI key materialField

/-- `Object.keys(prices).find(...)` over the insertion-ordered price map:
the first key matching the line's material, with its price. -/
def findPriceKey (prices : List (String × ℚ)) (materialField : String) : Option (String × ℚ) :=
  prices.find? (fun p => priceKeyMatches materialField p.1)

/-- Updating one material line from the price map (lines 312-321): set
`unitPrice` from the first matching key, else keep the line unchanged. -/
def applyPrice (prices : List (String × ℚ)) (item : MaterialItem) : MaterialItem :=
  match findPriceKey prices item.material with
  | some p => { item with unitPrice := p.2 }
  | none => item

/-- Embedding of the `materials.map` of `handleFetchPrices`. -/
def handleFetchPrices (prices : List (String × ℚ)) (items : List MaterialItem) :
    List MaterialItem :=
  items.map (applyPrice prices)

/-- One row of the parsed pricing-service response (`data.prices`). -/
structure RawPrice where
  material : Option String
  pricePerKg : Option ℚ
deriving DecidableEq, Repr

/-- JS object assignment `priceMap[k] = v`: overwrite the value when the key
exists (keeping first-insertion iteration order), else append. -/
def insertPrice (m : List (String × ℚ)) (k : String) (v : ℚ) : List (String × ℚ) :=
  if m.any (fun p => p.1 == k) then m.map (fun p => if p.1 == k then (p.1, v) else p)
  else m ++ [(k, v)]

/-- Embedding of the price-map construction of `findMaterialPrices`
(gemini.ts lines 192-198): an entry is stored only when
`p.material && p.pricePerKg` is truthy. -/
def findMaterialPrices (ps : List RawPrice) : List (String × ℚ) :=
  ps.foldl (fun m p =>
    if strTruthy p.material && numTruthy p.pricePerKg then
      insertPrice m (p.material.getD "") (p.pricePerKg.getD 0)
    else m) []

theorem mem_insertPrice (m : List (String × ℚ)) (k : String) (v : ℚ) :
    ∀ kv ∈ insertPrice m k v, kv ∈ m ∨ kv = (k, v) := by
  intro kv hkv
  unfold insertPrice at hkv
  by_cases h : m.any (fun p => p.1 == k) = true
  · rw [if_pos h] at hkv
    obtain ⟨p, hp, hpe⟩ := List.mem_map.mp hkv
    by_cases hk : p.1 == k
    · right
      rw [if_pos hk] at hpe
      rw [← hpe, eq_of_beq hk]
    · left
      rw [if_neg hk] at hpe
      rw [← hpe]
      exact hp
  · rw [if_neg h] at hkv
    rcases List.mem_append.mp hkv with h1 | h1
    · exact Or.inl h1
    · right
      simpa using h1

theorem findMaterialPrices_aux (P : String × ℚ → Prop) :
    ∀ (ps : List RawPrice) (m : List (String × ℚ)),
      (∀ kv ∈ m, P kv) →
      (∀ p ∈ ps, strTruthy p.material = true → numTruthy p.pricePerKg = true →
        P (p.material.getD "", p.pricePerKg.getD 0)) →
      ∀ kv ∈ ps.foldl (fun m p =>
          if strTruthy p.material && numTruthy p.pricePerKg then
            insertPrice m (p.material.getD "") (p.pricePerKg.getD 0)
          else m) m, P kv := by
  intro ps
  induction ps with
  | nil => intro m hm _ kv hkv; exact hm kv hkv
  | cons p ps ih =>
    intro m hm hps kv hkv
    simp only [List.foldl_cons] at hkv
    by_cases hc : (strTruthy p.material && numTruthy p.pricePerKg) = true
    · rw [if_pos hc] at hkv
      obtain ⟨h1, h2⟩ := Bool.and_eq_true_iff.mp hc
      refine ih _ ?_ (fun q hq => hps q (List.mem_cons_of_mem _ hq)) kv hkv
      intro kv2 hkv2
      rcases mem_insertPrice m _ _ kv2 hkv2 with h | h
      · exact hm kv2 h
      · rw [h]
        exact hps p (List.mem_cons_self _ _) h1 h2
    · rw [if_neg hc] at hkv
      exact ih m hm (fun q hq => hps q (List.mem_cons_of_mem _ hq)) kv hkv

/-- C7: a line's `unitPrice` is updated exactly when some response key and
the line's `material` field contain one another case-insensitively, the
first matching key of the map winning; a line with no matching key is
unchanged, and a failed lookup (empty map) changes nothing. -/
theorem handleFetchPrices_matching (prices : List (String × ℚ))
    (items : List MaterialItem) (item : MaterialItem) :
    ((∀ p ∈ prices, priceKeyMatches item.material p.1 = false) →
      applyPrice prices item = item) ∧
    (∀ (l r : List (String × ℚ)) (k : String) (v : ℚ),
      prices = l ++ (k, v) :: r →
      (∀ p ∈ l, priceKeyMatches item.material p.1 = false) →
      priceKeyMatches item.material k = true →
      applyPrice prices item = { item with unitPrice := v }) ∧
    handleFetchPrices [] items = items ∧
    ((applyPrice prices item).unitPrice ≠ item.unitPrice →
      ∃ p ∈ prices, priceKeyMatches item.material p.1 = true) := by
  refine ⟨?_, ?_, ?_, ?_⟩
  · intro hnone
    unfold applyPrice findPriceKey
    rw [List.find?_eq_none.mpr (by
      intro p hp
      simp [hnone p hp])]
  · intro l r k v hsplit hl hk
    unfold applyPrice findPriceKey
    rw [hsplit, List.find?_append,
      List.find?_eq_none.mpr (by intro p hp; simp [hl p hp]),
      Option.none_or, List.find?_cons_of_pos _ (by simpa using hk)]
  · have happ : ∀ it : MaterialItem, applyPrice [] it = it := by
      intro it; rfl
    unfold handleFetchPrices
    rw [show applyPrice ([] : List (String × ℚ)) = id from funext happ, List.map_id]
  · intro hchanged
    cases hfind : findPriceKey prices item.material with
    | none =>
      exfalso
      apply hchanged
      unfold applyPrice
      rw [hfind]
    | some p =>
      unfold findPriceKey at hfind
      refine ⟨p, List.mem_of_find?_eq_some hfind, ?_⟩
      have hps := List.find?_some hfind
      simpa using hps

/-- Witness for C7: the key `Q345R` matches the line material `q345r钢板`
case-insensitively and sets its unit price from the first matching key;
a line of material `PTFE` matches nothing and is unchanged. -/
theorem handleFetchPrices_matching_witness :
    applyPrice [("16MnDR", 7), ("Q345R", 5)]
      { id := "m", name := "壳体", material := "q345r钢板", specification := "",
        weight := 10, quantity := 1, unitPrice := 3, totalPrice := 0, category := "plate" }
      = { id := "m", name := "壳体", material := "q345r钢板", specification := "",
          weight := 10, quantity := 1, unitPrice := 5, totalPrice := 0, category := "plate" } ∧
    applyPrice [("16MnDR", 7), ("Q345R", 5)]
      { id := "m2", name := "垫片", material := "PTFE", specification := "",
        weight := 1, quantity := 4, unitPrice := 9, totalPrice := 0, category := "other" }
      = { id := "m2", name := "垫片", material := "PTFE", specification := "",
          weight := 1, quantity := 4, unitPrice := 9, totalPrice := 0, category := "other" } := by
  constructor
  · exact (handleFetchPrices_matching [("16MnDR", 7), ("Q345R", 5)] []
      { id := "m", name := "壳体", material := "q345r钢板", specification := "",
        weight := 10, quantity := 1, unitPrice := 3, totalPrice := 0,
        category := "plate" }).2.1 [("16MnDR", 7)] [] "Q345R" 5 rfl
      (by decide) (by decide)
  · exact (handleFetchPrices_matching [("16MnDR", 7), ("Q345R", 5)] []
      { id := "m2", name := "垫片", material := "PTFE", specification := "",
        weight := 1, quantity := 4, unitPrice := 9, totalPrice := 0,
        category := "other" }).1 (by decide)

/-- C10: the mapping built by `findMaterialPrices` omits every response row
whose material name or price is missing/falsy — every stored entry has a
non-empty key and a non-zero price traceable to a response row — so a price
lookup never sets a matched line's `unitPrice` to `0`: after `applyPrice`
the line's price is either unchanged or non-zero. -/
theorem findMaterialPrices_omits_falsy (ps : List RawPrice) :
    (∀ kv ∈ findMaterialPrices ps, kv.1 ≠ "" ∧ kv.2 ≠ 0 ∧
      ∃ p ∈ ps, p.material = some kv.1 ∧ p.pricePerKg = some kv.2) ∧
    ((∀ p ∈ ps, strTruthy p.material = false ∨ numTruthy p.pricePerKg = false) →
      findMaterialPrices ps = []) ∧
    (∀ item : MaterialItem,
      (applyPrice (findMaterialPrices ps) item).unitPrice = item.unitPrice ∨
      (applyPrice (findMaterialPrices ps) item).unitPrice ≠ 0) := by
  refine ⟨?_, ?_, ?_⟩
  · intro kv hkv
    refine findMaterialPrices_aux
      (fun kv => kv.1 ≠ "" ∧ kv.2 ≠ 0 ∧
        ∃ p ∈ ps, p.material = some kv.1 ∧ p.pricePerKg = some kv.2)
      ps [] (by simp) ?_ kv hkv
    intro p hp h1 h2
    cases hm : p.material with
    | none => rw [hm] at h1; simp [strTruthy] at h1
    | some s =>
      cases hq : p.pricePerKg with
      | none => rw [hq] at h2; simp [numTruthy] at h2
      | some q =>
        rw [hm] at h1
        rw [hq] at h2
        simp only [strTruthy, decide_eq_true_eq] at h1
        simp only [numTruthy, decide_eq_true_eq] at h2
        exact ⟨by simpa [hm] using h1, by simpa [hq] using h2,
          p, hp, by simp [hm], by simp [hq]⟩
  · intro hfalsy
    unfold findMaterialPrices
    induction ps with
    | nil => rfl
    | cons p ps ih =>
      have h1 := hfalsy p (List.mem_cons_self _ _)
      have hc : (strTruthy p.material && numTruthy p.pricePerKg) = false := by
        rcases h1 with h | h <;> simp [h]
      simp only [List.foldl_cons, hc, Bool.false_eq_true, if_false]
      exact ih (fun q hq => hfalsy q (List.mem_cons_of_mem _ hq))
  · intro item
    cases hfind : findPriceKey (findMaterialPrices ps) item.material with
    | none =>
      left
      unfold applyPrice
      rw [hfind]
    | some p =>
      right
      have hmem := List.mem_of_find?_eq_some hfind
      have hgood : p.2 ≠ 0 := by
        refine findMaterialPrices_aux (fun kv => kv.2 ≠ 0) ps [] (by simp) ?_ p hmem
        intro q hq h1 h2
        cases hqq : q.pricePerKg with
        | none => rw [hqq] at h2; simp [numTruthy] at h2
        | some v =>
          rw [hqq] at h2
          simp only [numTruthy, decide_eq_true_eq] at h2
          simpa [hqq] using h2
      unfold applyPrice
      rw [hfind]
      exact hgood

/-- Witness for C10: a response with one falsy row (zero price) and one good
row keeps only the good row, and a matched line receives its non-zero
price. -/
theorem findMaterialPrices_omits_falsy_witness :
    findMaterialPrices [⟨some "PTFE", some 0⟩] = [] ∧
    ((applyPrice (findMaterialPrices [⟨some "Q345R", some 5⟩, ⟨none, some 9⟩])
        { id := "m", name := "壳体", material := "Q345R", specification := "",
          weight := 10, quantity := 1, unitPrice := 3, totalPrice := 0,
          category := "plate" }).unitPrice =
      { id := "m", name := "壳体", material := "Q345R", specification := "",
        weight := 10, quantity := 1, unitPrice := 3, totalPrice := 0,
        category := "plate" : MaterialItem }.unitPrice ∨
      (applyPrice (findMaterialPrices [⟨some "Q345R", some 5⟩, ⟨none, some 9⟩])
        { id := "m", name := "壳体", material := "Q345R", specification := "",
          weight := 10, quantity := 1, unitPrice := 3, totalPrice := 0,
          category := "plate" }).unitPrice ≠ 0) := by
  constructor
  · exact (findMaterialPrices_omits_falsy [⟨some "PTFE", some 0⟩]).2.1
      (by intro p hp; simp only [List.mem_singleton] at hp; rw [hp]; right; decide)
  · exact (findMaterialPrices_omits_falsy [⟨some "Q345R", some 5⟩, ⟨none, some 9⟩]).2.2
      { id := "m", name := "壳体", material := "Q345R", specification := "",
        weight := 10, quantity := 1, unitPrice := 3, totalPrice := 0, category := "plate" }

/-! ## C9: order independence of consolidation

Records produced by consolidation carry freshly generated identifiers
(`Date.now()`-based record and material-line ids, and loop indices); the
claim compares "final record sets up to the ordering of the drawings and
materials collections", so records are compared through a content
projection that erases the generated ids and takes `materials` as a
multiset and `drawings` as a set. -/

/-- Content of a material line, excluding the generated id. -/
structure MatContent where
  name : String
  material : String
  specification : String
  weight : ℚ
  quantity : ℚ
  unitPrice : ℚ
  totalPrice : ℚ
  category : String
deriving DecidableEq, Repr

def matContentOf (it : MaterialItem) : MatContent :=
  ⟨it.name, it.material, it.specification, it.weight, it.quantity,
    it.unitPrice, it.totalPrice, it.category⟩

/-- The content of a consolidated material line depends only on the raw row. -/
def rawMatContent (m : RawMaterial) : MatContent :=
  ⟨jsOrStr m.name "未知组件", jsOrStr m.material "N/A", jsOrStr m.specification "-",
    jsOrNum m.weight 0, jsOrNum m.quantity 1, 0, 0, jsOrStr m.category "other"⟩

/-- Content of a consolidated equipment record: generated ids erased,
`materials` up to ordering, `drawings` as a set. -/
structure EquipContent where
  tag : String
  name : String
  specification : String
  mainMaterial : String
  designWeight : ℚ
  materials : Multiset MatContent
  drawings : Finset String
  status : EqStatus
deriving DecidableEq

def contentOf (e : Equipment) : EquipContent :=
  ⟨e.tag, e.name, e.specification, e.mainMaterial, e.designWeight,
    ↑(e.materials.map matContentOf), e.drawings.toFinset, e.status⟩

/-- An entry stripped of the file's loop index (the only part of an entry
that depends on the processing order). -/
structure KEntry where
  fileName : String
  base64 : String
  eqIdx : ℕ
  raw : RawEquip
deriving DecidableEq, Repr

def Entry.toK (x : Entry) : KEntry := ⟨x.fileName, x.base64, x.eqIdx, x.raw⟩

def KEntry.key (x : KEntry) : String := tagKey x.fileName x.eqIdx x.raw.tag

/-- The entries of a file, independent of the file's position in the queue. -/
def kEntriesOf (f : FileEntry) : List KEntry :=
  f.equipments.enum.map (fun p => ⟨f.name, f.base64, p.1, p.2⟩)

theorem entriesOf_map_toK (fileIdx : ℕ) (f : FileEntry) :
    (entriesOf fileIdx f).map Entry.toK = kEntriesOf f := by
  simp [entriesOf, kEntriesOf, Entry.toK]

/-- The evolution of the record stored at key `k` under one consolidation
step. -/
def stepA (k : String) (o : Option Equipment) (x : Entry) : Option Equipment :=
  if Entry.key x == k then
    match o with
    | none => some (newEquip x.fileIdx x.eqIdx (Entry.key x) x.base64 x.raw
        (rawItemsOf x.fileIdx x.eqIdx x.raw))
    | some r => some (mergeEquip r x.base64 x.raw (rawItemsOf x.fileIdx x.eqIdx x.raw))
  else o

theorem hasKey_eq_isSome (k : String) (m : List (String × Equipment)) :
    hasKey k m = (lookupA k m).isSome := by
  induction m with
  | nil => rfl
  | cons p m ih =>
    by_cases h : p.1 == k
    · simp [hasKey, lookupA, List.find?_cons_of_pos, h]
    · simp only [Bool.not_eq_true] at h
      simp [hasKey, lookupA, List.find?_cons_of_neg, h] at ih ⊢
      exact ih

theorem lookupA_cons (k a : String) (w : Equipment) (rest : List (String × Equipment)) :
    lookupA k ((a, w) :: rest) = if a = k then some w else lookupA k rest := by
  by_cases h : a = k
  · simp [lookupA, List.find?_cons_of_pos, h]
  · rw [if_neg h]
    unfold lookupA
    rw [List.find?_cons_of_neg _ (by simp [beq_eq_false_iff_ne.mpr h])]

theorem lookupA_updateAssoc (k k0 : String) (f : Equipment → Equipment)
    (m : List (String × Equipment)) :
    lookupA k (updateAssoc k0 f m) =
      if k0 = k then (lookupA k m).map f else lookupA k m := by
  induction m with
  | nil =>
    show lookupA k [] = if k0 = k then (lookupA k []).map f else lookupA k []
    by_cases h : k0 = k <;> simp [h, lookupA]
  | cons p m ih =>
    obtain ⟨k1, v⟩ := p
    rw [updateAssoc]
    by_cases h1 : k1 = k0
    · rw [if_pos h1, lookupA_cons, lookupA_cons]
      by_cases h2 : k1 = k
      · have hk0 : k0 = k := (h1.symm.trans h2)
        rw [if_pos h2, if_pos hk0, if_pos h2]
        rfl
      · have hk0 : k0 ≠ k := fun hc => h2 (h1.trans hc)
        rw [if_neg h2, if_neg hk0, if_neg h2]
    · rw [if_neg h1, lookupA_cons, lookupA_cons]
      by_cases h2 : k1 = k
      · have hk0 : k0 ≠ k := fun hc => h1 (h2.trans hc.symm)
        rw [if_pos h2, if_neg hk0, if_pos h2]
      · rw [if_neg h2, if_neg h2, ih]

theorem lookupA_stepEntry (k : String) (m : List (String × Equipment)) (x : Entry) :
    lookupA k (stepEntry m x) = stepA k (lookupA k m) x := by
  unfold stepEntry stepA
  by_cases hk : Entry.key x == k
  · have hkk : Entry.key x = k := eq_of_beq hk
    rw [if_pos hk]
    by_cases hhas : hasKey (Entry.key x) m = true
    · rw [if_pos hhas]
      rw [lookupA_updateAssoc, if_pos hkk]
      rw [hasKey_eq_isSome, hkk] at hhas
      obtain ⟨r, hr⟩ := Option.isSome_iff_exists.mp hhas
      rw [hr]
      rfl
    · rw [if_neg hhas]
      rw [hasKey_eq_isSome, hkk] at hhas
      have hnone : lookupA k m = none := by
        cases hcase : lookupA k m with
        | none => rfl
        | some r => rw [hcase] at hhas; simp at hhas
      rw [hnone]
      unfold lookupA
      rw [List.find?_append]
      unfold lookupA at hnone
      have hfind : m.find? (fun p => p.1 == k) = none := by
        cases hcase : m.find? (fun p => p.1 == k) with
        | none => rfl
        | some p => rw [hcase] at hnone; simp at hnone
      rw [hfind, Option.none_or, hkk, List.find?_cons_of_pos _ (by simp)]
      rfl
  · rw [if_neg hk]
    have hne : Entry.key x ≠ k := fun hc => hk (by simp [hc])
    by_cases hhas : hasKey (Entry.key x) m = true
    · rw [if_pos hhas, lookupA_updateAssoc, if_neg hne]
    · rw [if_neg hhas]
      unfold lookupA
      rw [List.find?_append]
      have hlast : List.find? (fun p => p.1 == k) [(Entry.key x,
          newEquip x.fileIdx x.eqIdx (Entry.key x) x.base64 x.raw
            (rawItemsOf x.fileIdx x.eqIdx x.raw))] = none := by
        simp [List.find?, beq_eq_false_iff_ne.mpr hne]
      rw [hlast, Option.or_none]

theorem lookupA_foldl_stepEntry (k : String) :
    ∀ (entries : List Entry) (m : List (String × Equipment)),
      lookupA k (List.foldl stepEntry m entries) =
        List.foldl (stepA k) (lookupA k m) entries := by
  intro entries
  induction entries with
  | nil => intro m; rfl
  | cons x xs ih =>
    intro m
    simp only [List.foldl_cons]
    rw [ih, lookupA_stepEntry]

/-- The tag stored on a freshly created record (ExtractionView line 121). -/
def tagDisp (k : String) : String :=
  if strStartsWith k "Unknown-" then "未命名设备" else k

/-- Content of a record freshly created for key `k` from an entry. -/
def initC (k : String) (x : KEntry) : EquipContent :=
  ⟨tagDisp k, x.raw.name.getD "", x.raw.specification.getD "", x.raw.mainMaterial.getD "",
    x.raw.designWeight.getD 0, ↑(x.raw.materials.map rawMatContent), {x.base64},
    EqStatus.complete⟩

/-- Content-level merge of an entry into an existing record's content. -/
def mergeC (r : EquipContent) (x : KEntry) : EquipContent :=
  { r with
    materials := r.materials + ↑(x.raw.materials.map rawMatContent)
    drawings := insert x.base64 r.drawings
    specification := fillStr r.specification x.raw.specification
    mainMaterial := fillStr r.mainMaterial x.raw.mainMaterial
    designWeight := fillNum r.designWeight x.raw.designWeight }

/-- Content-level evolution of the record at key `k`. -/
def stepC (k : String) (o : Option EquipContent) (x : KEntry) : Option EquipContent :=
  if KEntry.key x == k then
    match o with
    | none => some (initC k x)
    | some r => some (mergeC r x)
  else o

/-- Content-level step with the key test already discharged. -/
def stepCNT (k : String) (o : Option EquipContent) (x : KEntry) : Option EquipContent :=
  match o with
  | none => some (initC k x)
  | some r => some (mergeC r x)

theorem rawItemsOf_content (i j : ℕ) (e : RawEquip) :
    (rawItemsOf i j e).map matContentOf = e.materials.map rawMatContent := by
  unfold rawItemsOf
  rw [List.map_map]
  rw [show (matContentOf ∘ fun p : ℕ × RawMaterial => mkMaterialItem (matId i j p.1) p.2)
      = (rawMatContent ∘ Prod.snd) from rfl]
  rw [← List.map_map, List.enum_map_snd]

theorem contentOf_newEquip (i j : ℕ) (k : String) (x : KEntry) :
    contentOf (newEquip i j k x.base64 x.raw (rawItemsOf i j x.raw)) = initC k x := by
  unfold contentOf newEquip initC tagDisp
  rw [rawItemsOf_content]
  simp

theorem contentOf_mergeEquip (r : Equipment) (i j : ℕ) (x : KEntry) :
    contentOf (mergeEquip r x.base64 x.raw (rawItemsOf i j x.raw)) = mergeC (contentOf r) x := by
  have hmat : (↑((r.materials ++ rawItemsOf i j x.raw).map matContentOf) : Multiset MatContent)
      = ↑(r.materials.map matContentOf) + ↑(x.raw.materials.map rawMatContent) := by
    rw [List.map_append, rawItemsOf_content, ← Multiset.coe_add]
  have hdraw : (if x.base64 ∈ r.drawings then r.drawings
      else r.drawings ++ [x.base64]).toFinset = insert x.base64 r.drawings.toFinset := by
    by_cases h : x.base64 ∈ r.drawings
    · rw [if_pos h]
      exact (Finset.insert_eq_self.mpr (List.mem_toFinset.mpr h)).symm
    · rw [if_neg h, List.toFinset_append]
      simp [Finset.insert_eq, Finset.union_comm]
  unfold contentOf mergeEquip mergeC
  simp only [EquipContent.mk.injEq]
  exact ⟨trivial, trivial, trivial, trivial, trivial, hmat, hdraw, trivial⟩

theorem map_contentOf_stepA (k : String) (o : Option Equipment) (x : Entry) :
    Option.map contentOf (stepA k o x) = stepC k (Option.map contentOf o) x.toK := by
  have hkey : KEntry.key x.toK = Entry.key x := rfl
  unfold stepA stepC
  rw [hkey]
  by_cases hk : (Entry.key x == k) = true
  · rw [if_pos hk, if_pos hk]
    have hkk : Entry.key x = k := eq_of_beq hk
    cases o with
    | none =>
      simp only [Option.map_none, Option.map_some]
      rw [hkk]
      exact congrArg some (contentOf_newEquip x.fileIdx x.eqIdx k x.toK)
    | some r =>
      simp only [Option.map_some]
      exact congrArg some (contentOf_mergeEquip r x.fileIdx x.eqIdx x.toK)
  · rw [if_neg hk, if_neg hk]

theorem map_contentOf_foldl_stepA (k : String) :
    ∀ (l : List Entry) (o : Option Equipment),
      Option.map contentOf (List.foldl (stepA k) o l) =
        List.foldl (stepC k) (Option.map contentOf o) (l.map Entry.toK) := by
  intro l
  induction l with
  | nil => intro o; rfl
  | cons x xs ih =>
    intro o
    simp only [List.foldl_cons, List.map_cons]
    rw [ih, map_contentOf_stepA]

theorem foldl_stepC_filter (k : String) :
    ∀ (l : List KEntry) (o : Option EquipContent),
      List.foldl (stepC k) o l =
        List.foldl (stepCNT k) o (l.filter (fun x => KEntry.key x == k)) := by
  intro l
  induction l with
  | nil => intro o; rfl
  | cons x xs ih =>
    intro o
    by_cases h : (KEntry.key x == k) = true
    · have hf : List.filter (fun y => KEntry.key y == k) (x :: xs)
          = x :: List.filter (fun y => KEntry.key y == k) xs := by
        simp [List.filter_cons, h]
      rw [List.foldl_cons, hf, List.foldl_cons, ih]
      have hs : stepC k o x = stepCNT k o x := by
        unfold stepC stepCNT
        rw [if_pos h]
      rw [hs]
    · have hf : List.filter (fun y => KEntry.key y == k) (x :: xs)
          = List.filter (fun y => KEntry.key y == k) xs := by
        simp [List.filter_cons, h]
      rw [List.foldl_cons, hf, ih]
      have hs : stepC k o x = o := by
        unfold stepC
        rw [if_neg h]
      rw [hs]

/-- The first truthy value of a list of optional strings, else `""`. -/
def firstTruthyStr (l : List (Option String)) : String :=
  match l.find? strTruthy with
  | some (some s) => s
  | _ => ""

/-- The first truthy value of a list of optional numbers, else `0`. -/
def firstTruthyQ (l : List (Option ℚ)) : ℚ :=
  match l.find? numTruthy with
  | some (some q) => q
  | _ => 0

theorem getD_eq_fillStr (o : Option String) : o.getD "" = fillStr "" o := by
  cases o with
  | none => rfl
  | some s =>
    unfold fillStr
    by_cases h : s = ""
    · subst h
      simp [strTruthy]
    · rw [if_pos ⟨rfl, by simp [strTruthy, h]⟩]

theorem getD_eq_fillNum (o : Option ℚ) : o.getD 0 = fillNum 0 o := by
  cases o with
  | none => rfl
  | some q =>
    unfold fillNum
    by_cases h : q = 0
    · subst h
      simp [numTruthy]
    · rw [if_pos ⟨rfl, by simp [numTruthy, h]⟩]

theorem foldl_fillStr : ∀ (l : List (Option String)) (a : String),
    l.foldl fillStr a = if a = "" then firstTruthyStr l else a := by
  intro l
  induction l with
  | nil =>
    intro a
    by_cases h : a = "" <;> simp [h, firstTruthyStr, List.find?]
  | cons o l ih =>
    intro a
    rw [List.foldl_cons, ih]
    by_cases ha : a = ""
    · subst ha
      by_cases ht : strTruthy o = true
      · obtain ⟨s, rfl⟩ : ∃ s, o = some s := by
          cases o with
          | none => simp [strTruthy] at ht
          | some s => exact ⟨s, rfl⟩
        have hs : s ≠ "" := by simpa [strTruthy] using ht
        have hfill : fillStr "" (some s) = s := by
          unfold fillStr
          rw [if_pos ⟨rfl, ht⟩]
          rfl
        rw [hfill, if_neg hs, if_pos rfl]
        unfold firstTruthyStr
        rw [List.find?_cons_of_pos _ ht]
      · have hfill : fillStr "" o = "" := by
          unfold fillStr
          by_cases hc : ("" : String) = "" ∧ strTruthy o = true
          · exact absurd hc.2 ht
          · rw [if_neg hc]
        rw [hfill, if_pos rfl, if_pos rfl]
        unfold firstTruthyStr
        rw [List.find?_cons_of_neg _ (by simpa using ht)]
    · have hfill : fillStr a o = a := by
        unfold fillStr
        rw [if_neg (fun hc => ha hc.1)]
      rw [hfill, if_neg ha, if_neg ha]

theorem foldl_fillNum : ∀ (l : List (Option ℚ)) (a : ℚ),
    l.foldl fillNum a = if a = 0 then firstTruthyQ l else a := by
  intro l
  induction l with
  | nil =>
    intro a
    by_cases h : a = 0 <;> simp [h, firstTruthyQ, List.find?]
  | cons o l ih =>
    intro a
    rw [List.foldl_cons, ih]
    by_cases ha : a = 0
    · subst ha
      by_cases ht : numTruthy o = true
      · obtain ⟨q, rfl⟩ : ∃ q, o = some q := by
          cases o with
          | none => simp [numTruthy] at ht
          | some q => exact ⟨q, rfl⟩
        have hq : q ≠ 0 := by simpa [numTruthy] using ht
        have hfill : fillNum 0 (some q) = q := by
          unfold fillNum
          rw [if_pos ⟨rfl, ht⟩]
          rfl
        rw [hfill, if_neg hq, if_pos rfl]
        unfold firstTruthyQ
        rw [List.find?_cons_of_pos _ ht]
      · have hfill : fillNum 0 o = 0 := by
          unfold fillNum
          by_cases hc : (0 : ℚ) = 0 ∧ numTruthy o = true
          · exact absurd hc.2 ht
          · rw [if_neg hc]
        rw [hfill, if_pos rfl, if_pos rfl]
        unfold firstTruthyQ
        rw [List.find?_cons_of_neg _ (by simpa using ht)]
    · have hfill : fillNum a o = a := by
        unfold fillNum
        rw [if_neg (fun hc => ha hc.1)]
      rw [hfill, if_neg ha, if_neg ha]

theorem firstTruthyStr_comm (u v : List (Option String))
    (H : ∀ x ∈ u ++ v, ∀ y ∈ u ++ v, strTruthy x = true → strTruthy y = true → x = y) :
    firstTruthyStr (u ++ v) = firstTruthyStr (v ++ u) := by
  unfold firstTruthyStr
  rw [List.find?_append, List.find?_append]
  cases h1 : u.find? strTruthy with
  | none =>
    cases h2 : v.find? strTruthy with
    | none => rfl
    | some y => rfl
  | some x =>
    cases h2 : v.find? strTruthy with
    | none => rfl
    | some y =>
      have hx : x ∈ u ++ v := List.mem_append_left _ (List.mem_of_find?_eq_some h1)
      have hy : y ∈ u ++ v := List.mem_append_right _ (List.mem_of_find?_eq_some h2)
      have hxy : x = y := H x hx y hy (List.find?_some h1) (List.find?_some h2)
      rw [hxy]

theorem firstTruthyQ_comm (u v : List (Option ℚ))
    (H : ∀ x ∈ u ++ v, ∀ y ∈ u ++ v, numTruthy x = true → numTruthy y = true → x = y) :
    firstTruthyQ (u ++ v) = firstTruthyQ (v ++ u) := by
  unfold firstTruthyQ
  rw [List.find?_append, List.find?_append]
  cases h1 : u.find? numTruthy with
  | none =>
    cases h2 : v.find? numTruthy with
    | none => rfl
    | some y => rfl
  | some x =>
    cases h2 : v.find? numTruthy with
    | none => rfl
    | some y =>
      have hx : x ∈ u ++ v := List.mem_append_left _ (List.mem_of_find?_eq_some h1)
      have hy : y ∈ u ++ v := List.mem_append_right _ (List.mem_of_find?_eq_some h2)
      have hxy : x = y := H x hx y hy (List.find?_some h1) (List.find?_some h2)
      rw [hxy]

/-- Explicit form of the record content accumulated at key `k` from the
entries mapping to `k`, in processing order. -/
def buildC (k : String) (l : List KEntry) : Option EquipContent :=
  match l with
  | [] => none
  | c :: _ => some
      { tag := tagDisp k
        name := c.raw.name.getD ""
        specification := firstTruthyStr (l.map (fun x => x.raw.specification))
        mainMaterial := firstTruthyStr (l.map (fun x => x.raw.mainMaterial))
        designWeight := firstTruthyQ (l.map (fun x => x.raw.designWeight))
        materials := (l.map (fun x =>
          (↑(x.raw.materials.map rawMatContent) : Multiset MatContent))).sum
        drawings := (l.map (fun x => x.base64)).toFinset
        status := EqStatus.complete }

attribute [ext] EquipContent

theorem foldl_stepCNT_some (k : String) :
    ∀ (l : List KEntry) (r : EquipContent),
      List.foldl (stepCNT k) (some r) l = some
        { tag := r.tag
          name := r.name
          specification := (l.map (fun x => x.raw.specification)).foldl fillStr r.specification
          mainMaterial := (l.map (fun x => x.raw.mainMaterial)).foldl fillStr r.mainMaterial
          designWeight := (l.map (fun x => x.raw.designWeight)).foldl fillNum r.designWeight
          materials := r.materials + (l.map (fun x =>
            (↑(x.raw.materials.map rawMatContent) : Multiset MatContent))).sum
          drawings := r.drawings ∪ (l.map (fun x => x.base64)).toFinset
          status := r.status } := by
  intro l
  induction l with
  | nil =>
    intro r
    refine congrArg some (EquipContent.ext rfl rfl rfl rfl rfl ?_ ?_ rfl)
    · simp
    · simp
  | cons c cs ih =>
    intro r
    rw [List.foldl_cons]
    show List.foldl (stepCNT k) (some (mergeC r c)) cs = _
    rw [ih (mergeC r c)]
    refine congrArg some (EquipContent.ext rfl rfl ?_ ?_ ?_ ?_ ?_ rfl)
    · dsimp only
      rw [List.map_cons, List.foldl_cons]
      rfl
    · dsimp only
      rw [List.map_cons, List.foldl_cons]
      rfl
    · dsimp only
      rw [List.map_cons, List.foldl_cons]
      rfl
    · dsimp only
      rw [List.map_cons, List.sum_cons, ← add_assoc]
      rfl
    · dsimp only
      rw [List.map_cons, List.toFinset_cons, Finset.union_insert,
        show (mergeC r c).drawings = insert c.base64 r.drawings from rfl,
        Finset.insert_union]

theorem foldl_stepCNT_eq_buildC (k : String) (l : List KEntry) :
    List.foldl (stepCNT k) none l = buildC k l := by
  cases l with
  | nil => rfl
  | cons c cs =>
    rw [List.foldl_cons]
    show List.foldl (stepCNT k) (some (initC k c)) cs = _
    rw [foldl_stepCNT_some k cs (initC k c)]
    refine congrArg some (EquipContent.ext rfl rfl ?_ ?_ ?_ ?_ ?_ rfl)
    · dsimp only
      rw [show (initC k c).specification = c.raw.specification.getD "" from rfl,
        getD_eq_fillStr, ← List.foldl_cons, foldl_fillStr, if_pos rfl]
      simp only [List.map_cons]
    · dsimp only
      rw [show (initC k c).mainMaterial = c.raw.mainMaterial.getD "" from rfl,
        getD_eq_fillStr, ← List.foldl_cons, foldl_fillStr, if_pos rfl]
      simp only [List.map_cons]
    · dsimp only
      rw [show (initC k c).designWeight = c.raw.designWeight.getD 0 from rfl,
        getD_eq_fillNum, ← List.foldl_cons, foldl_fillNum, if_pos rfl]
      simp only [List.map_cons]
    · dsimp only
      rw [List.map_cons, List.sum_cons]
      rfl
    · dsimp only
      rw [List.map_cons, List.toFinset_cons, Finset.insert_eq]
      rfl

theorem buildC_comm (k : String) (l1 l2 : List KEntry)
    (H : ∀ x ∈ l1 ++ l2, ∀ y ∈ l1 ++ l2,
      x.raw.name.getD "" = y.raw.name.getD "" ∧
      (strTruthy x.raw.specification = true → strTruthy y.raw.specification = true →
        x.raw.specification = y.raw.specification) ∧
      (strTruthy x.raw.mainMaterial = true → strTruthy y.raw.mainMaterial = true →
        x.raw.mainMaterial = y.raw.mainMaterial) ∧
      (numTruthy x.raw.designWeight = true → numTruthy y.raw.designWeight = true →
        x.raw.designWeight = y.raw.designWeight)) :
    buildC k (l1 ++ l2) = buildC k (l2 ++ l1) := by
  cases hl1 : l1 with
  | nil => simp
  | cons c1 t1 =>
    cases hl2 : l2 with
    | nil => simp
    | cons c2 t2 =>
      subst hl1 hl2
      have hmem1 : c1 ∈ (c1 :: t1) ++ (c2 :: t2) := List.mem_append_left _ (List.mem_cons_self _ _)
      have hmem2 : c2 ∈ (c1 :: t1) ++ (c2 :: t2) := List.mem_append_right _ (List.mem_cons_self _ _)
      have Hmap : ∀ (g : KEntry → Option String),
          (∀ x ∈ (c1 :: t1) ++ (c2 :: t2), ∀ y ∈ (c1 :: t1) ++ (c2 :: t2),
            strTruthy (g x) = true → strTruthy (g y) = true → g x = g y) →
          firstTruthyStr (((c1 :: t1) ++ (c2 :: t2)).map g) =
            firstTruthyStr (((c2 :: t2) ++ (c1 :: t1)).map g) := by
        intro g hg
        rw [List.map_append, List.map_append]
        apply firstTruthyStr_comm
        intro a ha b hb hta htb
        rw [← List.map_append] at ha hb
        obtain ⟨x, hx, rfl⟩ := List.mem_map.mp ha
        obtain ⟨y, hy, rfl⟩ := List.mem_map.mp hb
        exact hg x hx y hy hta htb
      have HmapQ : ∀ (g : KEntry → Option ℚ),
          (∀ x ∈ (c1 :: t1) ++ (c2 :: t2), ∀ y ∈ (c1 :: t1) ++ (c2 :: t2),
            numTruthy (g x) = true → numTruthy (g y) = true → g x = g y) →
          firstTruthyQ (((c1 :: t1) ++ (c2 :: t2)).map g) =
            firstTruthyQ (((c2 :: t2) ++ (c1 :: t1)).map g) := by
        intro g hg
        rw [List.map_append, List.map_append]
        apply firstTruthyQ_comm
        intro a ha b hb hta htb
        rw [← List.map_append] at ha hb
        obtain ⟨x, hx, rfl⟩ := List.mem_map.mp ha
        obtain ⟨y, hy, rfl⟩ := List.mem_map.mp hb
        exact hg x hx y hy hta htb
      show some _ = some _
      refine congrArg some (EquipContent.ext rfl ?_ ?_ ?_ ?_ ?_ ?_ rfl)
      · dsimp only
        exact (H c1 hmem1 c2 hmem2).1
      · dsimp only
        exact Hmap (fun x => x.raw.specification)
          (fun x hx y hy => (H x hx y hy).2.1)
      · dsimp only
        exact Hmap (fun x => x.raw.mainMaterial)
          (fun x hx y hy => (H x hx y hy).2.2.1)
      · dsimp only
        exact HmapQ (fun x => x.raw.designWeight)
          (fun x hx y hy => (H x hx y hy).2.2.2)
      · dsimp only
        rw [List.map_append, List.map_append, List.sum_append, List.sum_append, add_comm]
      · dsimp only
        rw [List.map_append, List.map_append, List.toFinset_append, List.toFinset_append,
          Finset.union_comm]

theorem processQueue_pair (A B : FileEntry) :
    processQueue [A, B] = List.foldl stepEntry [] (entriesOf 0 A ++ entriesOf 1 B) := by
  simp [processQueue, consolidateFile, List.enum, List.enumFrom, List.foldl_append]

/-- First file of the C9 counterexample: tag `V-1` with specification
`DN1000`. -/
def c9fileA : FileEntry :=
  { name := "a.pdf", base64 := "d1",
    equipments := [{ tag := some "V-1", name := some "罐", specification := some "DN1000",
                     mainMaterial := none, designWeight := none, materials := [] }] }

/-- Second file of the C9 counterexample: the same tag `V-1` but a
conflicting non-empty specification `DN2000`. -/
def c9fileB : FileEntry :=
  { name := "b.pdf", base64 := "d2",
    equipments := [{ tag := some "V-1", name := some "罐", specification := some "DN2000",
                     mainMaterial := none, designWeight := none, materials := [] }] }

/-- Counterexample to C9 as stated: consolidating file A then file B keeps
specification `DN1000` for tag `V-1`, while B then A keeps `DN2000`
(fill-if-empty is first-value-wins), so the final record sets differ in
content, not merely in the ordering of `drawings`/`materials`. -/
theorem consolidation_order_counterexample :
    (lookupA "V-1" (processQueue [c9fileA, c9fileB])).map contentOf ≠
      (lookupA "V-1" (processQueue [c9fileB, c9fileA])).map contentOf := by
  intro h
  have h2 := congrArg (fun o => (Option.map EquipContent.specification o).getD "") h
  exact absurd h2 (by decide)

/-- C9 as amended: consolidating file A then file B yields the same final
record contents (per merge key, up to the ordering of the `drawings` and
`materials` collections and up to the generated ids) as B then A, provided
that any two raw results from the two files that map to the same merge key
agree on their name and do not carry conflicting non-empty/non-zero
`specification`, `mainMaterial` or `designWeight` values. -/
theorem consolidation_pair_content_comm (A B : FileEntry)
    (H : ∀ x ∈ kEntriesOf A ++ kEntriesOf B, ∀ y ∈ kEntriesOf A ++ kEntriesOf B,
      KEntry.key x = KEntry.key y →
      (x.raw.name.getD "" = y.raw.name.getD "" ∧
        (strTruthy x.raw.specification = true → strTruthy y.raw.specification = true →
          x.raw.specification = y.raw.specification) ∧
        (strTruthy x.raw.mainMaterial = true → strTruthy y.raw.mainMaterial = true →
          x.raw.mainMaterial = y.raw.mainMaterial) ∧
        (numTruthy x.raw.designWeight = true → numTruthy y.raw.designWeight = true →
          x.raw.designWeight = y.raw.designWeight))) :
    ∀ k : String, (lookupA k (processQueue [A, B])).map contentOf =
      (lookupA k (processQueue [B, A])).map contentOf := by
  intro k
  rw [processQueue_pair A B, processQueue_pair B A,
    lookupA_foldl_stepEntry, lookupA_foldl_stepEntry]
  have hnil : Option.map contentOf (lookupA k ([] : List (String × Equipment))) = none := rfl
  rw [map_contentOf_foldl_stepA, map_contentOf_foldl_stepA, hnil,
    List.map_append, List.map_append,
    entriesOf_map_toK 0 A, entriesOf_map_toK 1 B, entriesOf_map_toK 0 B,
    entriesOf_map_toK 1 A,
    foldl_stepC_filter, foldl_stepC_filter, List.filter_append, List.filter_append,
    foldl_stepCNT_eq_buildC, foldl_stepCNT_eq_buildC]
  have hmemf : ∀ x, x ∈ (kEntriesOf A).filter (fun z => KEntry.key z == k) ++
      (kEntriesOf B).filter (fun z => KEntry.key z == k) →
      x ∈ kEntriesOf A ++ kEntriesOf B ∧ KEntry.key x = k := by
    intro x hx
    rcases List.mem_append.mp hx with h | h
    · obtain ⟨hm, hk⟩ := List.mem_filter.mp h
      exact ⟨List.mem_append_left _ hm, eq_of_beq hk⟩
    · obtain ⟨hm, hk⟩ := List.mem_filter.mp h
      exact ⟨List.mem_append_right _ hm, eq_of_beq hk⟩
  apply buildC_comm
  intro x hx y hy
  obtain ⟨hxm, hxk⟩ := hmemf x hx
  obtain ⟨hym, hyk⟩ := hmemf y hy
  exact H x hxm y hym (hxk.trans hyk.symm)

/-- Witness for C9 as amended: two files sharing tag `V-1` whose second
extraction carries no conflicting metadata consolidate to the same `V-1`
record content in either processing order. -/
theorem consolidation_pair_content_comm_witness :
    (lookupA "V-1" (processQueue
      [{ name := "a.pdf", base64 := "d1",
         equipments := [{ tag := some "V-1", name := some "罐", specification := some "DN1000",
                          mainMaterial := none, designWeight := none, materials := [] }] },
       { name := "b.pdf", base64 := "d2",
         equipments := [{ tag := some "V-1", name := some "罐", specification := none,
                          mainMaterial := some "Q345R", designWeight := none,
                          materials := [] }] }])).map contentOf =
    (lookupA "V-1" (processQueue
      [{ name := "b.pdf", base64 := "d2",
         equipments := [{ tag := some "V-1", name := some "罐", specification := none,
                          mainMaterial := some "Q345R", designWeight := none,
                          materials := [] }] },
       { name := "a.pdf", base64 := "d1",
         equipments := [{ tag := some "V-1", name := some "罐", specification := some "DN1000",
                          mainMaterial := none, designWeight := none,
                          materials := [] }] }])).map contentOf :=
  consolidation_pair_content_comm
    { name := "a.pdf", base64 := "d1",
      equipments := [{ tag := some "V-1", name := some "罐", specification := some "DN1000",
                       mainMaterial := none, designWeight := none, materials := [] }] }
    { name := "b.pdf", base64 := "d2",
      equipments := [{ tag := some "V-1", name := some "罐", specification := none,
                       mainMaterial := some "Q345R", designWeight := none, materials := [] }] }
    (by decide) "V-1"

end PVEstimator
